import Mathlib

/-!
Verification of the `files` package of x0rzkov/tool-tmplt (a helm-style
template helper library).  The Go source (src/files/files.go) is shallowly
embedded below: the package's own logic (nil checks, base-name flattening,
base64 encoding, the error-handling branches of the codec wrappers, the
glob loop) is translated directly from the source; the external library
calls (gopkg.in/yaml.v2, encoding/json, BurntSushi/toml, path/filepath,
encoding/base64) are modelled by executable Lean functions restricted to
the fragment of behaviour the package exercises.
-/

namespace TmpltFiles

/-! ## Generic dynamic value model

Go's `interface\x7b\x7d` universe as used by the codec functions: strings,
integers (Go decodes JSON numbers as float64; the model keeps the numeric
value as an `Int`, which is exact for the float64-representable integers),
booleans, null, sequences, string-keyed maps, and an `unsupported`
constructor standing for values no codec can encode (Go `func`, `chan`,
...).  Sequencing types are a mutual inductive so that recursion and
induction stay structural. -/

mutual

inductive Value : Type where
  | vstr (s : String)
  | vnum (n : Int)
  | vbool (b : Bool)
  | vnull
  | varr (xs : VList)
  | vobj (fs : VFields)
  | vfunc

inductive VList : Type where
  | nil
  | cons (v : Value) (tl : VList)

inductive VFields : Type where
  | nil
  | cons (k : String) (v : Value) (tl : VFields)

end

/-- Append for field lists. -/
def fappend : VFields → VFields → VFields
  | .nil, gs => gs
  | .cons k v tl, gs => .cons k v (fappend tl gs)

/-- The keys of a field list, in order. -/
def fkeys : VFields → List String
  | .nil => []
  | .cons k _ tl => k :: fkeys tl

/-- Go map assignment `m[k] = v` on an association list: replace the
binding in place if the key is present, append it otherwise. -/
def fmapSet (m : VFields) (k : String) (v : Value) : VFields :=
  match m with
  | .nil => .cons k v .nil
  | .cons k2 v2 tl => if k2 = k then .cons k v tl else .cons k2 v2 (fmapSet tl k v)

/-- Go map assignment on a `List (String × α)` association list. -/
def mapSet {α : Type} (m : List (String × α)) (k : String) (v : α) :
    List (String × α) :=
  match m with
  | [] => [(k, v)]
  | (k2, v2) :: tl => if k2 = k then (k, v) :: tl else (k2, v2) :: mapSet tl k v

mutual

/-- Does a value contain Go's unsupported kinds (`func` etc.)?  All three
marshalers fail exactly on such values. -/
def containsFunc : Value → Bool
  | .vstr _ => false
  | .vnum _ => false
  | .vbool _ => false
  | .vnull => false
  | .varr xs => containsFuncL xs
  | .vobj fs => containsFuncF fs
  | .vfunc => true

def containsFuncL : VList → Bool
  | .nil => false
  | .cons v tl => containsFunc v || containsFuncL tl

def containsFuncF : VFields → Bool
  | .nil => false
  | .cons _ v tl => containsFunc v || containsFuncF tl

end

/-! ## Byte-order string comparison (Go `<` on strings)

Self-contained so that all ordering proofs are by computation.  UTF-8 byte
order agrees with code-point order, so comparing char lists by code point
models Go's byte-wise string comparison. -/

def charsLt : List Char → List Char → Bool
  | [], [] => false
  | [], _ :: _ => true
  | _ :: _, [] => false
  | a :: as, b :: bs =>
    if a.toNat < b.toNat then true
    else if b.toNat < a.toNat then false
    else charsLt as bs

def strLt (a b : String) : Bool := charsLt a.data b.data

/-! ## UTF-8 bytes of a string (Go `[]byte(s)`) -/

/-- Standard UTF-8 encoding of one character, as byte values. -/
def charUtf8 (c : Char) : List Nat :=
  let n := c.toNat
  if n < 0x80 then [n]
  else if n < 0x800 then [0xC0 + n / 0x40, 0x80 + n % 0x40]
  else if n < 0x10000 then
    [0xE0 + n / 0x1000, 0x80 + n / 0x40 % 0x40, 0x80 + n % 0x40]
  else
    [0xF0 + n / 0x40000, 0x80 + n / 0x1000 % 0x40, 0x80 + n / 0x40 % 0x40,
      0x80 + n % 0x40]

/-- Go `[]byte(s)`: the UTF-8 bytes of a string. -/
def strBytes (s : String) : List Nat := (s.data.map charUtf8).flatten

/-! ## base64 (Go `encoding/base64` `StdEncoding.EncodeToString`) -/

/-- The standard base64 alphabet, indexed 0..63. -/
def b64Char (n : Nat) : Char :=
  "ABCDEFGHIJKLMNOPQRSTUVWXYZabcdefghijklmnopqrstuvwxyz0123456789+/".data.getD n 'A'

/-- Standard base64 with `=` padding over a byte list. -/
def base64Chars : List Nat → List Char
  | [] => []
  | [a] => [b64Char (a / 4), b64Char (a % 4 * 16), '=', '=']
  | [a, b] => [b64Char (a / 4), b64Char (a % 4 * 16 + b / 16), b64Char (b % 16 * 4), '=']
  | a :: b :: c :: rest =>
    b64Char (a / 4) :: b64Char (a % 4 * 16 + b / 16) ::
      b64Char (b % 16 * 4 + c / 64) :: b64Char (c % 64) :: base64Chars rest

/-- Go `base64.StdEncoding.EncodeToString([]byte(s))`. -/
def base64Encode (s : String) : String := String.mk (base64Chars (strBytes s))

/-! ## path/filepath models -/

/-- Go `filepath.Base` for `/`-separated paths: last element after
stripping trailing slashes; `"."` for the empty path, `"/"` for a path of
only slashes. -/
def filepathBase (p : String) : String :=
  if p.data = [] then "."
  else
    let r := p.data.reverse.dropWhile (fun c => c = '/')
    if r = [] then "/"
    else String.mk (r.takeWhile (fun c => c ≠ '/')).reverse

/-- Go `filepath.Join(dir, p)` restricted to already-clean components (the
`Clean` normalisation pass is not modelled; no claim depends on it). -/
def filepathJoin (dir p : String) : String :=
  if dir = "" then p
  else if p = "" then dir
  else dir ++ "/" ++ p

/-! ## Sorting of object fields

Both `encoding/json` and `yaml.v2` emit Go map keys in ascending byte
order; `sortValue` normalises a value the way marshalling observes it. -/

def fieldsInsert (k : String) (v : Value) : VFields → VFields
  | .nil => .cons k v .nil
  | .cons k2 v2 tl =>
    if strLt k k2 then .cons k v (.cons k2 v2 tl)
    else .cons k2 v2 (fieldsInsert k v tl)

def sortFields : VFields → VFields
  | .nil => .nil
  | .cons k v tl => fieldsInsert k v (sortFields tl)

mutual

def sortValue : Value → Value
  | .vstr s => .vstr s
  | .vnum n => .vnum n
  | .vbool b => .vbool b
  | .vnull => .vnull
  | .varr xs => .varr (sortValueL xs)
  | .vobj fs => .vobj (sortFields (sortValueF fs))
  | .vfunc => .vfunc

def sortValueL : VList → VList
  | .nil => .nil
  | .cons v tl => .cons (sortValue v) (sortValueL tl)

def sortValueF : VFields → VFields
  | .nil => .nil
  | .cons k v tl => .cons k (sortValue v) (sortValueF tl)

end

/-! ## Decimal digits -/

def digitChar (d : Nat) : Char :=
  match d with
  | 0 => '0' | 1 => '1' | 2 => '2' | 3 => '3' | 4 => '4'
  | 5 => '5' | 6 => '6' | 7 => '7' | 8 => '8' | _ => '9'

def natDigits (n : Nat) : List Char :=
  if n < 10 then [digitChar n]
  else natDigits (n / 10) ++ [digitChar (n % 10)]
  termination_by n
  decreasing_by exact Nat.div_lt_self (by omega) (by omega)

def intChars (n : Int) : List Char :=
  if n < 0 then '-' :: natDigits n.natAbs else natDigits n.toNat

def digitsVal (ds : List Char) : Nat :=
  ds.foldl (fun a c => a * 10 + (c.toNat - 48)) 0

/-! ## JSON marshalling (model of `encoding/json.Marshal`)

Restricted to the dynamic values of the `Value` type; numbers are the
integers (exactly those the repo's round trips exercise); the encoder's
default HTML escaping (`<`, `>`, `&`) and control-character escaping are
modelled. -/

def hexChar (n : Nat) : Char :=
  match n with
  | 0 => '0' | 1 => '1' | 2 => '2' | 3 => '3' | 4 => '4' | 5 => '5'
  | 6 => '6' | 7 => '7' | 8 => '8' | 9 => '9' | 10 => 'a' | 11 => 'b'
  | 12 => 'c' | 13 => 'd' | 14 => 'e' | _ => 'f'

def jsonEscapeChar (c : Char) : List Char :=
  if c = '"' then ['\\', '"']
  else if c = '\\' then ['\\', '\\']
  else if c = '\n' then ['\\', 'n']
  else if c = '\r' then ['\\', 'r']
  else if c = '\t' then ['\\', 't']
  else if c.toNat < 0x20 then
    ['\\', 'u', '0', '0', hexChar (c.toNat / 16), hexChar (c.toNat % 16)]
  else if c = '<' then ['\\', 'u', '0', '0', '3', 'c']
  else if c = '>' then ['\\', 'u', '0', '0', '3', 'e']
  else if c = '&' then ['\\', 'u', '0', '0', '2', '6']
  else if c.toNat = 0x2028 then ['\\', 'u', '2', '0', '2', '8']
  else if c.toNat = 0x2029 then ['\\', 'u', '2', '0', '2', '9']
  else [c]

def jsonEscape (cs : List Char) : List Char := (cs.map jsonEscapeChar).flatten

mutual

def jsonSer : Value → List Char
  | .vstr s => '"' :: (jsonEscape s.data ++ ['"'])
  | .vnum n => intChars n
  | .vbool true => ['t', 'r', 'u', 'e']
  | .vbool false => ['f', 'a', 'l', 's', 'e']
  | .vnull => ['n', 'u', 'l', 'l']
  | .varr .nil => ['[', ']']
  | .varr (.cons v tl) => '[' :: (jsonSer v ++ (jsonSerArrTail tl ++ [']']))
  | .vobj .nil => ['\x7b', '\x7d']
  | .vobj (.cons k v tl) =>
    '\x7b' :: ('"' :: (jsonEscape k.data ++ ('"' :: ':' :: jsonSer v))
      ++ (jsonSerObjTail tl ++ ['\x7d']))
  | .vfunc => []

def jsonSerArrTail : VList → List Char
  | .nil => []
  | .cons v tl => ',' :: (jsonSer v ++ jsonSerArrTail tl)

def jsonSerObjTail : VFields → List Char
  | .nil => []
  | .cons k v tl =>
    ',' :: ('"' :: (jsonEscape k.data ++ ('"' :: ':' :: jsonSer v)) ++ jsonSerObjTail tl)

end

/-- One serialised object member, `"key":value` (definitionally the form
`jsonSer` and `jsonSerObjTail` emit for each field). -/
def serKV (k : String) (v : Value) : List Char :=
  '"' :: (jsonEscape k.data ++ ('"' :: ':' :: jsonSer v))

/-- Marshal error of `encoding/json` (Go `*UnsupportedTypeError`). -/
inductive JsonMarshalErr : Type where
  | unsupportedType (t : String)

def JsonMarshalErr.message : JsonMarshalErr → String
  | .unsupportedType t => "json: unsupported type: " ++ t

/-- Model of `json.Marshal`: fails exactly on values containing an
unsupported kind, otherwise emits compact JSON with map keys in ascending
byte order. -/
def jsonMarshal (v : Value) : Except JsonMarshalErr String :=
  if containsFunc v then .error (.unsupportedType "func()")
  else .ok (String.mk (jsonSer (sortValue v)))

/-! ## JSON unmarshalling (model of `encoding/json.Unmarshal` into
`map[string]interface\x7b\x7d`)

Restricted to integer numeric literals (no fraction/exponent forms, which
the repo's own output never produces). -/

inductive JsonErr : Type where
  | unexpectedEnd
  | invalidChar (c : Char)
  | invalidEscape
  | cannotUnmarshal (what : String)
  | afterTopLevel (c : Char)
  | depth

def squote : Char := '\''

def JsonErr.message : JsonErr → String
  | .unexpectedEnd => "unexpected end of JSON input"
  | .invalidChar c =>
    "invalid character " ++ String.mk [squote, c, squote] ++ " looking for beginning of value"
  | .invalidEscape => "invalid character in string escape code"
  | .cannotUnmarshal w =>
    "json: cannot unmarshal " ++ w ++ " into Go value of type map[string]interface \x7b\x7d"
  | .afterTopLevel c =>
    "invalid character " ++ String.mk [squote, c, squote] ++ " after top-level value"
  | .depth => "exceeded maximum nesting depth"

def isWsB (c : Char) : Bool := c == ' ' || c == '\t' || c == '\n' || c == '\r'

def skipWs (cs : List Char) : List Char := cs.dropWhile isWsB

def parseHex (c : Char) : Option Nat :=
  if c.isDigit then some (c.toNat - 48)
  else if 97 ≤ c.toNat && c.toNat ≤ 102 then some (c.toNat - 87)
  else if 65 ≤ c.toNat && c.toNat ≤ 70 then some (c.toNat - 55)
  else none

def unescapeChar (e : Char) : Option Char :=
  match e with
  | '"' => some '"'
  | '\\' => some '\\'
  | '/' => some '/'
  | 'n' => some '\n'
  | 't' => some '\t'
  | 'r' => some '\r'
  | 'b' => some (Char.ofNat 8)
  | 'f' => some (Char.ofNat 12)
  | _ => none

def parseStringBody : List Char → Except JsonErr (List Char × List Char)
  | [] => .error .unexpectedEnd
  | c :: rest =>
    if c = '"' then .ok ([], rest)
    else if c = '\\' then
      match rest with
      | 'u' :: a :: b :: c2 :: d :: rest2 =>
        match parseHex a, parseHex b, parseHex c2, parseHex d with
        | some ha, some hb, some hc, some hd =>
          match parseStringBody rest2 with
          | .error e => .error e
          | .ok (s, r2) => .ok (Char.ofNat (ha * 4096 + hb * 256 + hc * 16 + hd) :: s, r2)
        | _, _, _, _ => .error .invalidEscape
      | e :: rest2 =>
        match unescapeChar e with
        | some c2 =>
          match parseStringBody rest2 with
          | .error er => .error er
          | .ok (s, r2) => .ok (c2 :: s, r2)
        | none => .error .invalidEscape
      | [] => .error .unexpectedEnd
    else
      match parseStringBody rest with
      | .error e => .error e
      | .ok (s, r2) => .ok (c :: s, r2)

def parseNum (cs : List Char) : Except JsonErr (Int × List Char) :=
  match cs with
  | [] => .error .unexpectedEnd
  | c :: rest =>
    if c = '-' then
      if rest.takeWhile Char.isDigit = [] then
        .error (match rest.dropWhile Char.isDigit with
          | [] => .unexpectedEnd
          | c2 :: _ => .invalidChar c2)
      else
        .ok (-(Int.ofNat (digitsVal (rest.takeWhile Char.isDigit))),
          rest.dropWhile Char.isDigit)
    else
      if (c :: rest).takeWhile Char.isDigit = [] then
        .error (match (c :: rest).dropWhile Char.isDigit with
          | [] => .unexpectedEnd
          | c2 :: _ => .invalidChar c2)
      else
        .ok (Int.ofNat (digitsVal ((c :: rest).takeWhile Char.isDigit)),
          (c :: rest).dropWhile Char.isDigit)

/-- Go's object decoding assigns each parsed field into the target map in
document order, so a duplicated key keeps its last value. -/
def collapseGo (acc : VFields) : VFields → VFields
  | .nil => acc
  | .cons k v tl => collapseGo (fmapSet acc k v) tl

def collapseFields (fs : VFields) : VFields := collapseGo .nil fs

mutual

def parseVal : Nat → List Char → Except JsonErr (Value × List Char)
  | 0, _ => .error .depth
  | fuel + 1, cs =>
    match skipWs cs with
    | [] => .error .unexpectedEnd
    | c :: r =>
      if c = '"' then
        match parseStringBody r with
        | .error e => .error e
        | .ok (s, r2) => .ok (.vstr (String.mk s), r2)
      else if c = 't' then
        match r with
        | 'r' :: 'u' :: 'e' :: r2 => .ok (.vbool true, r2)
        | _ => .error (.invalidChar c)
      else if c = 'f' then
        match r with
        | 'a' :: 'l' :: 's' :: 'e' :: r2 => .ok (.vbool false, r2)
        | _ => .error (.invalidChar c)
      else if c = 'n' then
        match r with
        | 'u' :: 'l' :: 'l' :: r2 => .ok (.vnull, r2)
        | _ => .error (.invalidChar c)
      else if c = '[' then
        match skipWs r with
        | [] => .error .unexpectedEnd
        | c2 :: r2 =>
          if c2 = ']' then .ok (.varr .nil, r2)
          else
            match parseArrItems fuel r with
            | .error e => .error e
            | .ok (xs, r3) => .ok (.varr xs, r3)
      else if c = '\x7b' then
        match skipWs r with
        | [] => .error .unexpectedEnd
        | c2 :: r2 =>
          if c2 = '\x7d' then .ok (.vobj .nil, r2)
          else
            match parseObjItems fuel r with
            | .error e => .error e
            | .ok (fs, r3) => .ok (.vobj (collapseFields fs), r3)
      else if c = '-' || c.isDigit then
        match parseNum (c :: r) with
        | .error e => .error e
        | .ok (n, r2) => .ok (.vnum n, r2)
      else .error (.invalidChar c)

def parseArrItems : Nat → List Char → Except JsonErr (VList × List Char)
  | 0, _ => .error .depth
  | fuel + 1, cs =>
    match parseVal fuel cs with
    | .error e => .error e
    | .ok (v, r) =>
      match skipWs r with
      | [] => .error .unexpectedEnd
      | c :: r2 =>
        if c = ',' then
          match parseArrItems fuel r2 with
          | .error e => .error e
          | .ok (xs, r3) => .ok (.cons v xs, r3)
        else if c = ']' then .ok (.cons v .nil, r2)
        else .error (.invalidChar c)

def parseObjItems : Nat → List Char → Except JsonErr (VFields × List Char)
  | 0, _ => .error .depth
  | fuel + 1, cs =>
    match skipWs cs with
    | [] => .error .unexpectedEnd
    | c :: r =>
      if c = '"' then
        match parseStringBody r with
        | .error e => .error e
        | .ok (k, r2) =>
          match skipWs r2 with
          | [] => .error .unexpectedEnd
          | c2 :: r3 =>
            if c2 = ':' then
              match parseVal fuel r3 with
              | .error e => .error e
              | .ok (v, r4) =>
                match skipWs r4 with
                | [] => .error .unexpectedEnd
                | c3 :: r5 =>
                  if c3 = ',' then
                    match parseObjItems fuel r5 with
                    | .error e => .error e
                    | .ok (fs, r6) => .ok (.cons (String.mk k) v fs, r6)
                  else if c3 = '\x7d' then .ok (.cons (String.mk k) v .nil, r5)
                  else .error (.invalidChar c3)
            else .error (.invalidChar c2)
      else .error (.invalidChar c)

end

/-- Model of `json.Unmarshal(data, &m)` for `m : map[string]interface\x7b\x7d`:
parse one JSON value; a non-object top-level value is a type error, and
`null` leaves the pre-initialised empty map unchanged.  The parse fuel
(input length + 2) cannot run out, as every nesting level consumes input. -/
def jsonUnmarshalMap (s : String) : Except JsonErr VFields :=
  match parseVal (s.data.length + 2) s.data with
  | .error e => .error e
  | .ok (v, rest) =>
    match skipWs rest with
    | c :: _ => .error (.afterTopLevel c)
    | [] =>
      match v with
      | .vobj fs => .ok fs
      | .vnull => .ok .nil
      | .vstr _ => .error (.cannotUnmarshal "string")
      | .vnum _ => .error (.cannotUnmarshal "number")
      | .vbool _ => .error (.cannotUnmarshal "bool")
      | .varr _ => .error (.cannotUnmarshal "array")
      | .vfunc => .error (.cannotUnmarshal "value")

/-! ## The repository's JSON wrappers (files.go, translated) -/

/-- `ToJson` (files.go:203-210): marshal to JSON; on error swallow the
error and return the empty string. -/
def ToJson (v : Value) : String :=
  match jsonMarshal v with
  | .error _ => ""
  | .ok data => data

/-- `FromJson` (files.go:218-225): unmarshal into a fresh generic map; on
error store the error description under the key `"Error"`. -/
def FromJson (str : String) : VFields :=
  match jsonUnmarshalMap str with
  | .ok m => m
  | .error e => fmapSet .nil "Error" (.vstr e.message)

/-! ## YAML marshalling (model of `gopkg.in/yaml.v2.Marshal`)

Faithful on the fragment the repository exercises: flat string-keyed maps
of scalars (emitted as sorted `key: value` lines, `\x7b\x7d\n` for the
empty map, single-quoted scalars when a plain scalar would be ambiguous)
and top-level scalars.  Nested containers are rendered inline in flow
style — a model deviation from yaml.v2's block style that no claim
depends on, since `AsConfig`/`AsSecrets` only ever marshal flat string
maps.  Marshalling fails exactly on values containing an unsupported kind
(Go `func` etc.), which yaml.v2 reports by panic/recover. -/

def yamlPlainChar (c : Char) : Bool :=
  c.isAlphanum || c == '.' || c == '_' || c == '-' || c == '=' || c == '/'

def yamlNumericLike (cs : List Char) : Bool :=
  cs.all (fun c => c.isDigit || c == '.')

def yamlReservedWord (s : String) : Bool :=
  s == "true" || s == "false" || s == "null" || s == "~" || s == "yes" ||
    s == "no" || s == "on" || s == "off"

def yamlPlainSafe (s : String) : Bool :=
  match s.data with
  | [] => false
  | c :: cs =>
    c.isAlphanum && (c :: cs).all yamlPlainChar &&
      !yamlNumericLike (c :: cs) && !yamlReservedWord s

def yamlQuoteSingle (cs : List Char) : List Char :=
  (cs.map (fun c => if c = '\'' then ['\'', '\''] else [c])).flatten

mutual

def yamlInline : Value → List Char
  | .vstr s =>
    if yamlPlainSafe s then s.data
    else '\'' :: (yamlQuoteSingle s.data ++ ['\''])
  | .vnum n => intChars n
  | .vbool true => ['t', 'r', 'u', 'e']
  | .vbool false => ['f', 'a', 'l', 's', 'e']
  | .vnull => ['n', 'u', 'l', 'l']
  | .varr .nil => ['[', ']']
  | .varr (.cons v tl) => '[' :: (yamlInline v ++ (yamlInlineArrTail tl ++ [']']))
  | .vobj .nil => ['\x7b', '\x7d']
  | .vobj (.cons k v tl) =>
    '\x7b' :: (k.data ++ (':' :: ' ' :: yamlInline v) ++ (yamlInlineObjTail tl ++ ['\x7d']))
  | .vfunc => []

def yamlInlineArrTail : VList → List Char
  | .nil => []
  | .cons v tl => ',' :: ' ' :: (yamlInline v ++ yamlInlineArrTail tl)

def yamlInlineObjTail : VFields → List Char
  | .nil => []
  | .cons k v tl =>
    ',' :: ' ' :: (k.data ++ (':' :: ' ' :: yamlInline v) ++ yamlInlineObjTail tl)

end

/-- One `key: value` document line per map entry. -/
def yamlDocLines : VFields → List Char
  | .nil => []
  | .cons k v tl => k.data ++ (':' :: ' ' :: yamlInline v) ++ ('\n' :: yamlDocLines tl)

/-- The document yaml.v2 produces for a value (keys already sorted). -/
def yamlRenderDoc : Value → String
  | .vobj .nil => String.mk ['\x7b', '\x7d', '\n']
  | .vobj fs => String.mk (yamlDocLines fs)
  | v => String.mk (yamlInline v ++ ['\n'])

/-- Marshal error of yaml.v2 (reported via panic/recover). -/
inductive YamlMarshalErr : Type where
  | cannotMarshal (t : String)

def YamlMarshalErr.message : YamlMarshalErr → String
  | .cannotMarshal t => "cannot marshal type: " ++ t

def yamlMarshal (v : Value) : Except YamlMarshalErr String :=
  if containsFunc v then .error (.cannotMarshal "func()")
  else .ok (yamlRenderDoc (sortValue v))

/-! ## YAML unmarshalling (model of `yaml.v2.Unmarshal` into
`map[string]interface\x7b\x7d`)

Restricted to flat documents: one `key: value` mapping per line, a plain
or single/double-quoted scalar value, the empty document and the `\x7b\x7d`
flow document.  A plain value that itself contains a `: `-style mapping
indicator is the classic yaml error the spec's test mentions. -/

inductive YamlErr : Type where
  | mappingValuesNotAllowed
  | cannotUnmarshalStr (s : String)
  | badQuoted

def YamlErr.message : YamlErr → String
  | .mappingValuesNotAllowed => "yaml: mapping values are not allowed in this context"
  | .cannotUnmarshalStr s =>
    "yaml: unmarshal errors:\n  line 1: cannot unmarshal !!str `" ++ s ++
      "` into map[string]interface \x7b\x7d"
  | .badQuoted => "yaml: found unexpected end of stream"

def splitLines : List Char → List (List Char)
  | [] => []
  | c :: cs =>
    if c = '\n' then [] :: splitLines cs
    else
      match splitLines cs with
      | [] => [[c]]
      | l :: ls => (c :: l) :: ls

/-- Split a line at the first `: ` (or a trailing `:`), yielding key and
value text; `none` when the line is no mapping. -/
def yamlSplitKey : List Char → Option (List Char × List Char)
  | [] => none
  | ':' :: [] => some ([], [])
  | ':' :: ' ' :: rest => some ([], rest.dropWhile (fun c => c = ' '))
  | c :: rest =>
    match yamlSplitKey rest with
    | none => none
    | some (k, v) => some (c :: k, v)

/-- Does a plain scalar contain a `: ` (or trailing `:`) mapping
indicator, which yaml rejects in this context? -/
def plainHasMapping : List Char → Bool
  | [] => false
  | ':' :: [] => true
  | ':' :: ' ' :: _ => true
  | _ :: rest => plainHasMapping rest

/-- Single-quoted scalar body: content up to the closing quote, `''`
unescaped to `'`; must close exactly at end of line. -/
def singleQuotedBody : List Char → Option (List Char)
  | [] => none
  | '\'' :: [] => some []
  | '\'' :: '\'' :: rest =>
    match singleQuotedBody rest with
    | none => none
    | some s => some ('\'' :: s)
  | '\'' :: _ :: _ => none
  | c :: rest =>
    match singleQuotedBody rest with
    | none => none
    | some s => some (c :: s)

/-- Double-quoted scalar body (no escapes modelled; the repository's own
output never emits double quotes). -/
def doubleQuotedBody : List Char → Option (List Char)
  | [] => none
  | '"' :: [] => some []
  | '"' :: _ :: _ => none
  | c :: rest =>
    match doubleQuotedBody rest with
    | none => none
    | some s => some (c :: s)

def isIntLit (cs : List Char) : Bool :=
  match cs with
  | '-' :: ds => ds ≠ [] && ds.all Char.isDigit
  | ds => ds ≠ [] && ds.all Char.isDigit

def intLitVal (cs : List Char) : Int :=
  match cs with
  | '-' :: ds => -(Int.ofNat (digitsVal ds))
  | ds => Int.ofNat (digitsVal ds)

/-- yaml.v2's scalar typing: integers decode as `int`, `true`/`false` as
`bool`, `null`/`~`/empty as nil, everything else as `string`. -/
def yamlScalar (cs : List Char) : Except YamlErr Value :=
  match cs with
  | [] => .ok .vnull
  | '\'' :: rest =>
    match singleQuotedBody rest with
    | some content => .ok (.vstr (String.mk content))
    | none => .error .badQuoted
  | '"' :: rest =>
    match doubleQuotedBody rest with
    | some content => .ok (.vstr (String.mk content))
    | none => .error .badQuoted
  | _ =>
    if plainHasMapping cs then .error .mappingValuesNotAllowed
    else
      let t := (cs.reverse.dropWhile (fun c => c = ' ')).reverse
      if isIntLit t then .ok (.vnum (intLitVal t))
      else if t = "true".data then .ok (.vbool true)
      else if t = "false".data then .ok (.vbool false)
      else if t = "null".data || t = "~".data then .ok .vnull
      else .ok (.vstr (String.mk t))

def yamlParseLine (l : List Char) : Except YamlErr (String × Value) :=
  match yamlSplitKey l with
  | none => .error (.cannotUnmarshalStr (String.mk l))
  | some (k, vcs) =>
    match yamlScalar vcs with
    | .error e => .error e
    | .ok v => .ok (String.mk k, v)

def yamlLines : List (List Char) → VFields → Except YamlErr VFields
  | [], acc => .ok acc
  | l :: ls, acc =>
    match yamlParseLine l with
    | .error e => .error e
    | .ok (k, v) => yamlLines ls (fmapSet acc k v)

def yamlUnmarshalMap (s : String) : Except YamlErr VFields :=
  let lines := (splitLines s.data).filter (fun l => l ≠ [])
  if lines = [] then .ok .nil
  else if lines = [['\x7b', '\x7d']] then .ok .nil
  else yamlLines lines .nil

/-! ## TOML encoding (model of `BurntSushi/toml` `Encoder.Encode`)

Only the failure behaviour matters to the claims (no claim inspects a
successful TOML document), so the success path is a straightforward
rendering: scalar fields as `key = value` lines, nested tables as
`[key]` sections, arrays inline. -/

inductive TomlErr : Type where
  | unsupportedType (t : String)
  | noTopLevelTable

def TomlErr.message : TomlErr → String
  | .unsupportedType t => "unsupported type: " ++ t
  | .noTopLevelTable => "toml: top-level values must be Go maps or structs"

def tomlEscape (cs : List Char) : List Char :=
  (cs.map (fun c =>
    if c = '"' then ['\\', '"']
    else if c = '\\' then ['\\', '\\']
    else if c = '\n' then ['\\', 'n']
    else [c])).flatten

mutual

def tomlInline : Value → List Char
  | .vstr s => '"' :: (tomlEscape s.data ++ ['"'])
  | .vnum n => intChars n
  | .vbool true => ['t', 'r', 'u', 'e']
  | .vbool false => ['f', 'a', 'l', 's', 'e']
  | .vnull => []
  | .varr .nil => ['[', ']']
  | .varr (.cons v tl) => '[' :: (tomlInline v ++ (tomlInlineTail tl ++ [']']))
  | .vobj fs => tomlFields fs
  | .vfunc => []

def tomlInlineTail : VList → List Char
  | .nil => []
  | .cons v tl => ',' :: ' ' :: (tomlInline v ++ tomlInlineTail tl)

def tomlFields : VFields → List Char
  | .nil => []
  | .cons k (.vobj sub) tl =>
    '[' :: (k.data ++ (']' :: '\n' :: tomlFields sub)) ++ tomlFields tl
  | .cons k v tl =>
    k.data ++ (' ' :: '=' :: ' ' :: tomlInline v) ++ ('\n' :: tomlFields tl)

end

/-- Model of `toml.NewEncoder(b).Encode(v)`: fails on unsupported kinds
and on non-table top-level values, otherwise writes a TOML document. -/
def tomlEncode (v : Value) : Except TomlErr String :=
  if containsFunc v then .error (.unsupportedType "func()")
  else
    match v with
    | .vobj fs => .ok (String.mk (tomlFields (sortFields fs)))
    | _ => .error .noTopLevelTable

/-! ## The repository's YAML and TOML wrappers (files.go, translated) -/

/-- `ToYaml` (files.go:160-167): marshal to YAML; on error swallow the
error and return the empty string. -/
def ToYaml (v : Value) : String :=
  match yamlMarshal v with
  | .error _ => ""
  | .ok data => data

/-- `FromYaml` (files.go:176-183): unmarshal into a fresh generic map; on
error store the error description under the key `"Error"`. -/
def FromYaml (str : String) : VFields :=
  match yamlUnmarshalMap str with
  | .ok m => m
  | .error e => fmapSet .nil "Error" (.vstr e.message)

/-- `ToToml` (files.go:189-197): marshal to TOML; on error return the
error description itself as the result string. -/
def ToToml (v : Value) : String :=
  match tomlEncode v with
  | .error e => e.message
  | .ok s => s

/-! ## Files and Dir (files.go, translated)

Go's `Files` is `map[string]string`, which may be `nil`; the model is an
`Option` over an association list (`none` = nil map, `some []` = the
non-nil empty map `make(Files, 0)`).  Go map iteration order is
unspecified; the model iterates in list order, which realises one
admissible enumeration. -/

abbrev FileEntries := List (String × String)

abbrev Files := Option FileEntries

/-- Lift a string map to a dynamic value (what passing `m` as
`interface\x7b\x7d` to `ToYaml` does). -/
def strFields : List (String × String) → VFields
  | [] => .nil
  | (k, v) :: tl => .cons k (.vstr v) (strFields tl)

def strMapValue (m : List (String × String)) : Value := .vobj (strFields m)

/-- `Files.AsConfig` (files.go:98-111): nil check, base-name flattening
with Go map assignment, then `ToYaml`. -/
def Files.AsConfig (f : Files) : String :=
  match f with
  | none => ""
  | some entries =>
    let m := entries.foldl (fun m kv => mapSet m (filepathBase kv.1) kv.2) []
    ToYaml (strMapValue m)

/-- `Files.AsSecrets` (files.go:127-139): like `AsConfig` but each value
is base64-encoded before serialisation. -/
def Files.AsSecrets (f : Files) : String :=
  match f with
  | none => ""
  | some entries =>
    let m := entries.foldl
      (fun m kv => mapSet m (filepathBase kv.1) (base64Encode kv.2)) []
    ToYaml (strMapValue m)

/-! ## Dir (filesystem modelled as an association list path → content) -/

abbrev FS := List (String × String)

def lookupFS (fs : FS) (p : String) : Option String :=
  match fs with
  | [] => none
  | (q, b) :: tl => if q = p then some b else lookupFS tl p

abbrev Dir := String

/-- `Dir.Get` (files.go:48-55): join and read; a failed read is fatal
(`glog.Exitf`), modelled as the `.error` result. -/
def Dir.Get (dir : Dir) (fs : FS) (name : String) : Except String String :=
  let p := filepathJoin dir name
  match lookupFS fs p with
  | none => .error ("Files.Get failed: open " ++ p ++ ": no such file or directory")
  | some b => .ok b

/-! ### Glob matching (model of `path/filepath.Match`/`Glob`)

`*` matches any run of non-separator characters, `?` one non-separator
character, `[...]` character classes with `^` negation and `-` ranges,
`\\` escapes; a malformed pattern is `ErrBadPattern`, detected lazily as
in Go.  The recursion is fuelled; the fuel bound (pattern + name length)
is never reached because every step consumes pattern or name. -/

def getEsc : List Char → Except Unit (Char × List Char)
  | [] => .error ()
  | '-' :: _ => .error ()
  | ']' :: _ => .error ()
  | '\\' :: c :: rest => if rest = [] then .error () else .ok (c, rest)
  | '\\' :: [] => .error ()
  | c :: rest => if rest = [] then .error () else .ok (c, rest)

def classRanges : Nat → Char → Bool → Bool → Nat → List Char →
    Except Unit (Bool × List Char)
  | 0, _, _, _, _, _ => .error ()
  | fuel + 1, r, negated, matched, nrange, chunk =>
    match chunk, nrange with
    | ']' :: rest, _ + 1 => .ok ((matched != negated), rest)
    | _, _ =>
      match getEsc chunk with
      | .error _ => .error ()
      | .ok (lo, rest1) =>
        match rest1 with
        | '-' :: rest2 =>
          match getEsc rest2 with
          | .error _ => .error ()
          | .ok (hi, rest3) =>
            classRanges fuel r negated
              (matched || (lo.toNat ≤ r.toNat && r.toNat ≤ hi.toNat)) (nrange + 1) rest3
        | _ =>
          classRanges fuel r negated (matched || (lo == r)) (nrange + 1) rest1

def globMatchF : Nat → List Char → List Char → Except Unit Bool
  | 0, _, _ => .error ()
  | _ + 1, [], [] => .ok true
  | _ + 1, [], _ :: _ => .ok false
  | fuel + 1, '*' :: ps, ns =>
    match globMatchF fuel ps ns with
    | .error e => .error e
    | .ok true => .ok true
    | .ok false =>
      match ns with
      | [] => .ok false
      | n :: ns2 => if n = '/' then .ok false else globMatchF fuel ('*' :: ps) ns2
  | fuel + 1, '?' :: ps, n :: ns => if n = '/' then .ok false else globMatchF fuel ps ns
  | _ + 1, '?' :: _, [] => .ok false
  | fuel + 1, '[' :: ps, n :: ns =>
    let (negated, ps2) :=
      match ps with
      | '^' :: rest => (true, rest)
      | _ => (false, ps)
    match classRanges (ps2.length + 1) n negated false 0 ps2 with
    | .error e => .error e
    | .ok (inClass, psRest) => if inClass then globMatchF fuel psRest ns else .ok false
  | _ + 1, '[' :: _, [] => .ok false
  | fuel + 1, '\\' :: p :: ps, n :: ns => if p = n then globMatchF fuel ps ns else .ok false
  | _ + 1, '\\' :: [], _ => .error ()
  | fuel + 1, p :: ps, n :: ns => if p = n then globMatchF fuel ps ns else .ok false
  | _ + 1, _ :: _, [] => .ok false

def globMatch (p n : List Char) : Except Unit Bool :=
  globMatchF (p.length + n.length + 1) p n

/-- The paths of the model filesystem matching the joined pattern, in
filesystem order. -/
def globPaths (fs : FS) (p : String) : Except Unit (List String) :=
  match fs with
  | [] => .ok []
  | (path, _) :: tl =>
    match globMatch p.data path.data with
    | .error e => .error e
    | .ok true =>
      match globPaths tl p with
      | .error e => .error e
      | .ok rest => .ok (path :: rest)
    | .ok false => globPaths tl p

/-- The read loop of `Dir.Glob`: read every matched file into the fresh
non-nil map `m`. -/
def globRead (fs : FS) (pattern : String) : List String → FileEntries →
    Except String FileEntries
  | [], m => .ok m
  | f :: rest, m =>
    match lookupFS fs f with
    | none => .error ("Files.Glob " ++ pattern ++ " failed: read error")
    | some b => globRead fs pattern rest (mapSet m f b)

/-- `Dir.Glob` (files.go:65-82): join pattern, enumerate matches, read
each into a fresh non-nil `Files`; pattern and read failures are fatal
(`glog.Exitf`), modelled as the `.error` result. -/
def Dir.Glob (dir : Dir) (fs : FS) (pattern : String) : Except String Files :=
  let p := filepathJoin dir pattern
  match globPaths fs p with
  | .error _ => .error ("Files.Glob " ++ pattern ++ " failed: syntax error in pattern")
  | .ok paths =>
    match globRead fs pattern paths [] with
    | .error e => .error e
    | .ok m => .ok (some m)

/-! ## Canonical values for the JSON round trip

`canV` picks out the values for which the JSON round trip is exact and
order-stable: strings whose characters survive the encoder unescaped,
integers exactly representable in a float64, booleans, null, and
sequences/maps of the same with map keys plain, strictly ascending and
duplicate-free (the order marshalling of a Go map produces). -/

def jsonPlainCharB (c : Char) : Bool :=
  c != '"' && c != '\\' && decide (0x20 ≤ c.toNat) && c != '<' && c != '>' &&
    c != '&' && c.toNat != 0x2028 && c.toNat != 0x2029

def strPlainB (s : String) : Bool := s.data.all jsonPlainCharB

def fkeyNotMem (k : String) : VFields → Bool
  | .nil => true
  | .cons k2 _ tl => if k2 = k then false else fkeyNotMem k tl

def keysPlainB : VFields → Bool
  | .nil => true
  | .cons k _ tl => strPlainB k && keysPlainB tl

def keysSortedAdjB : VFields → Bool
  | .nil => true
  | .cons _ _ .nil => true
  | .cons k _ (.cons k2 v2 tl) => strLt k k2 && keysSortedAdjB (.cons k2 v2 tl)

def keysNodupB : VFields → Bool
  | .nil => true
  | .cons k _ tl => fkeyNotMem k tl && keysNodupB tl

def canKeys (fs : VFields) : Bool := keysPlainB fs && keysSortedAdjB fs && keysNodupB fs

mutual

def canV : Value → Bool
  | .vstr s => strPlainB s
  | .vnum n => decide (n.natAbs ≤ 9007199254740992)
  | .vbool _ => true
  | .vnull => true
  | .varr xs => canL xs
  | .vobj fs => canKeys fs && canF fs
  | .vfunc => false

def canL : VList → Bool
  | .nil => true
  | .cons v tl => canV v && canL tl

def canF : VFields → Bool
  | .nil => true
  | .cons _ v tl => canV v && canF tl

end

/-! ## Fuel requirements of the JSON parser (nesting depth bounds) -/

mutual

def needV : Value → Nat
  | .vstr _ => 1
  | .vnum _ => 1
  | .vbool _ => 1
  | .vnull => 1
  | .varr xs => 1 + needL xs
  | .vobj fs => 1 + needF fs
  | .vfunc => 1

def needL : VList → Nat
  | .nil => 0
  | .cons v tl => 1 + max (needV v) (needL tl)

def needF : VFields → Nat
  | .nil => 0
  | .cons _ v tl => 1 + max (needV v) (needF tl)

end

/-- Is the remainder safe after a serialised number (empty or headed by a
non-digit delimiter)? -/
def numBoundaryB : List Char → Bool
  | [] => true
  | c :: _ => !c.isDigit

/-- Every key of the first field list is absent from the second. -/
def freshAll : VFields → VFields → Bool
  | .nil, _ => true
  | .cons k _ tl, acc => fkeyNotMem k acc && freshAll tl acc

/-- Does a `filepath.Match` result report "no match, no error"? -/
def noMatchB (r : Except Unit Bool) : Bool :=
  match r with
  | .ok false => true
  | _ => false

/-! # Helper lemmas -/

theorem append_left_data_ne (a b : String) (h : a.data ≠ []) : (a ++ b).data ≠ [] := by
  intro he
  rw [String.data_append] at he
  rcases List.append_eq_nil.mp he with ⟨ha, _⟩
  exact h ha

theorem string_append_ne_empty (s t : String) (h : s.data ≠ []) : s ++ t ≠ "" := by
  intro he
  have hd : (s ++ t).data = [] := by rw [he]
  exact append_left_data_ne s t h hd

theorem tomlErr_message_ne_empty (e : TomlErr) : e.message ≠ "" := by
  cases e with
  | unsupportedType t => exact string_append_ne_empty _ _ (by decide)
  | noTopLevelTable => decide

theorem yamlErr_message_ne_empty (e : YamlErr) : e.message ≠ "" := by
  cases e with
  | mappingValuesNotAllowed => decide
  | cannotUnmarshalStr s =>
    exact string_append_ne_empty _ _ (append_left_data_ne _ _ (by decide))
  | badQuoted => decide

theorem jsonErr_message_ne_empty (e : JsonErr) : e.message ≠ "" := by
  cases e with
  | unexpectedEnd => decide
  | invalidChar c =>
    exact string_append_ne_empty _ _ (append_left_data_ne _ _ (by decide))
  | invalidEscape => decide
  | cannotUnmarshal w =>
    exact string_append_ne_empty _ _ (append_left_data_ne _ _ (by decide))
  | afterTopLevel c =>
    exact string_append_ne_empty _ _ (append_left_data_ne _ _ (by decide))
  | depth => decide

/-! # Claims -/

/-- C1: for every value on which the TOML encoder fails, `ToToml` returns
the error's description (a non-empty string) as its result, whereas
`ToYaml` and `ToJson` return the empty string on their marshal
failures. -/
theorem c1_toml_error_asymmetry :
    (∀ v e, tomlEncode v = .error e → ToToml v = e.message ∧ e.message ≠ "") ∧
    (∀ v e, yamlMarshal v = .error e → ToYaml v = "") ∧
    (∀ v e, jsonMarshal v = .error e → ToJson v = "") := by
  refine ⟨fun v e h => ⟨?_, tomlErr_message_ne_empty e⟩, fun v e h => ?_,
    fun v e h => ?_⟩
  · simp [ToToml, h]
  · simp [ToYaml, h]
  · simp [ToJson, h]

/-- Witness for C1 at the unencodable value `vfunc`: all three encoders
fail on it, `ToToml` reports the message, the other two return `""`. -/
theorem c1_witness :
    ToToml Value.vfunc = "unsupported type: func()" ∧ ToYaml Value.vfunc = "" ∧
      ToJson Value.vfunc = "" := by
  obtain ⟨h1, h2, h3⟩ := c1_toml_error_asymmetry
  exact ⟨((h1 Value.vfunc (.unsupportedType "func()") rfl).1).trans rfl,
    h2 Value.vfunc (.cannotMarshal "func()") rfl,
    h3 Value.vfunc (.unsupportedType "func()") rfl⟩

/-- C3: on the nil collection, `AsConfig` and `AsSecrets` both return the
empty string, and neither operation fails (both are total). -/
theorem c3_nil_collection_empty :
    Files.AsConfig none = "" ∧ Files.AsSecrets none = "" := ⟨rfl, rfl⟩

/-- C4: `AsSecrets` serialises, via the YAML codec, the map keyed by each
entry's base name whose values are the base64 encodings of the contents;
on `\x7bs.txt: hello\x7d` it yields the YAML map `\x7bs.txt: aGVsbG8=\x7d`. -/
theorem c4_asSecrets_base64 :
    (∀ entries,
      Files.AsSecrets (some entries) =
        ToYaml (strMapValue (entries.foldl
          (fun m kv => mapSet m (filepathBase kv.1) (base64Encode kv.2)) []))) ∧
    Files.AsSecrets (some [("s.txt", "hello")]) = "s.txt: aGVsbG8=\n" ∧
    base64Encode "hello" = "aGVsbG8=" ∧
    FromYaml (Files.AsSecrets (some [("s.txt", "hello")])) =
      .cons "s.txt" (.vstr "aGVsbG8=") .nil :=
  ⟨fun _ => rfl, rfl, rfl, rfl⟩

/-- C5: `AsConfig` builds the base-name-keyed map with raw contents
(colliding base names overwrite, last seen wins) and serialises it via
the YAML codec; on `\x7bcfg/app.yaml: "v: 1"\x7d` the output parses as the
YAML map with key `app.yaml` and value `"v: 1"`. -/
theorem c5_asConfig_basename_flatten :
    (∀ entries,
      Files.AsConfig (some entries) =
        ToYaml (strMapValue (entries.foldl
          (fun m kv => mapSet m (filepathBase kv.1) kv.2) []))) ∧
    Files.AsConfig (some [("cfg/app.yaml", "v: 1")]) = "app.yaml: 'v: 1'\n" ∧
    FromYaml (Files.AsConfig (some [("cfg/app.yaml", "v: 1")])) =
      .cons "app.yaml" (.vstr "v: 1") .nil ∧
    Files.AsConfig (some [("a/one.txt", "X"), ("b/one.txt", "Y")]) = "one.txt: Y\n" :=
  ⟨fun _ => rfl, rfl, rfl, rfl⟩

/-- C6: the YAML round trip of the string map `\x7bk: v\x7d` recovers the
map, and the result carries no `"Error"` key. -/
theorem c6_yaml_round_trip_kv :
    FromYaml (ToYaml (strMapValue [("k", "v")])) = .cons "k" (.vstr "v") .nil ∧
    "Error" ∉ fkeys (FromYaml (ToYaml (strMapValue [("k", "v")]))) :=
  ⟨rfl, by decide⟩

/-- C7: on every input whose deserialisation fails, `FromYaml` and
`FromJson` return (instead of signalling an error) the singleton map
`\x7bError: description\x7d` with a non-empty description. -/
theorem c7_parse_error_sentinel :
    (∀ s e, yamlUnmarshalMap s = .error e →
      FromYaml s = .cons "Error" (.vstr e.message) .nil ∧ e.message ≠ "") ∧
    (∀ s e, jsonUnmarshalMap s = .error e →
      FromJson s = .cons "Error" (.vstr e.message) .nil ∧ e.message ≠ "") := by
  constructor
  · intro s e h
    exact ⟨by simp [FromYaml, h, fmapSet], yamlErr_message_ne_empty e⟩
  · intro s e h
    exact ⟨by simp [FromJson, h, fmapSet], jsonErr_message_ne_empty e⟩

/-- Witness for C7: the spec's malformed YAML document and the empty JSON
input both produce the `Error` sentinel map. -/
theorem c7_witness :
    FromYaml "not: valid: yaml: :" =
      .cons "Error" (.vstr "yaml: mapping values are not allowed in this context") .nil ∧
    FromJson "" = .cons "Error" (.vstr "unexpected end of JSON input") .nil := by
  obtain ⟨hy, hj⟩ := c7_parse_error_sentinel
  exact ⟨(hy "not: valid: yaml: :" .mappingValuesNotAllowed rfl).1,
    (hj "" .unexpectedEnd rfl).1⟩

theorem globPaths_empty_of_no_match (p : String) :
    ∀ fs : FS, fs.all (fun kv => noMatchB (globMatch p.data kv.1.data)) = true →
      globPaths fs p = .ok [] := by
  intro fs
  induction fs with
  | nil => intro _; rfl
  | cons kv tl ih =>
    intro h
    rw [List.all_cons, Bool.and_eq_true] at h
    obtain ⟨h1, h2⟩ := h
    obtain ⟨path, content⟩ := kv
    cases hm : globMatch p.data path.data with
    | error e => rw [hm] at h1; simp [noMatchB] at h1
    | ok b =>
      cases b with
      | true => rw [hm] at h1; simp [noMatchB] at h1
      | false => simp [globPaths, hm, ih h2]

/-- C8: a well-formed glob pattern with zero matches (every file of the
filesystem answers "no match, no error") makes `Glob` return the empty
but non-nil collection rather than taking the fatal error path. -/
theorem c8_glob_zero_matches (dir : Dir) (fs : FS) (pattern : String)
    (h : fs.all (fun kv =>
      noMatchB (globMatch (filepathJoin dir pattern).data kv.1.data)) = true) :
    Dir.Glob dir fs pattern = .ok (some []) := by
  simp only [Dir.Glob]
  rw [globPaths_empty_of_no_match (filepathJoin dir pattern) fs h]
  rfl

/-- Witness for C8 on a one-file filesystem and a pattern matching
nothing. -/
theorem c8_witness :
    (([("a/b.txt", "x")] : FS).all (fun kv =>
      noMatchB (globMatch (filepathJoin "a" "*.md").data kv.1.data)) = true) ∧
    Dir.Glob "a" [("a/b.txt", "x")] "*.md" = .ok (some []) :=
  ⟨by decide, c8_glob_zero_matches "a" [("a/b.txt", "x")] "*.md" (by decide)⟩

/-- C9: the empty but non-nil collection serialises to the YAML empty map
document `\x7b\x7d\n`, not to the empty string, so nil and empty-non-nil
are observably different at the public interface. -/
theorem c9_empty_nonnil_distinct_from_nil :
    Files.AsConfig (some []) = String.mk ['\x7b', '\x7d', '\n'] ∧
    Files.AsSecrets (some []) = String.mk ['\x7b', '\x7d', '\n'] ∧
    Files.AsConfig (some []) ≠ Files.AsConfig none ∧
    Files.AsSecrets (some []) ≠ Files.AsSecrets none :=
  ⟨rfl, rfl, by decide, by decide⟩

/-- C10: a valid document that itself defines a top-level `Error` field
parses successfully, so the presence of the `Error` key does not imply a
parse failure. -/
theorem c10_error_key_on_success :
    FromYaml "Error: msg" = .cons "Error" (.vstr "msg") .nil ∧
    yamlUnmarshalMap "Error: msg" = .ok (.cons "Error" (.vstr "msg") .nil) ∧
    FromJson "\x7b\"Error\": \"msg\"\x7d" = .cons "Error" (.vstr "msg") .nil ∧
    jsonUnmarshalMap "\x7b\"Error\": \"msg\"\x7d" =
      .ok (.cons "Error" (.vstr "msg") .nil) :=
  ⟨rfl, rfl, rfl, rfl⟩

/-! ## Digit and decimal-literal lemmas -/


theorem digitChar_facts (d : Nat) :
    (digitChar d).isDigit = true ∧ isWsB (digitChar d) = false ∧
      digitChar d ≠ ']' ∧ digitChar d ≠ '-' ∧ digitChar d ≠ '"' ∧
      digitChar d ≠ 't' ∧ digitChar d ≠ 'f' ∧ digitChar d ≠ 'n' ∧
      digitChar d ≠ '[' ∧ digitChar d ≠ '\x7b' ∧ digitChar d ≠ '\\' := by
  rcases d with _|_|_|_|_|_|_|_|_|d
  all_goals first
    | decide
    | exact (by decide :
        ('9' : Char).isDigit = true ∧ isWsB '9' = false ∧
          ('9' : Char) ≠ ']' ∧ ('9' : Char) ≠ '-' ∧ ('9' : Char) ≠ '"' ∧
          ('9' : Char) ≠ 't' ∧ ('9' : Char) ≠ 'f' ∧ ('9' : Char) ≠ 'n' ∧
          ('9' : Char) ≠ '[' ∧ ('9' : Char) ≠ '\x7b' ∧ ('9' : Char) ≠ '\\')

theorem digitChar_toNat (d : Nat) (h : d < 10) : (digitChar d).toNat = 48 + d := by
  interval_cases d <;> rfl

theorem natDigits_ne_nil (n : Nat) : natDigits n ≠ [] := by
  rw [natDigits]; split <;> simp

theorem natDigits_all_digit (n : Nat) : (natDigits n).all Char.isDigit = true := by
  induction n using Nat.strong_induction_on with
  | _ n ih =>
    rw [natDigits]; split
    · simp [(digitChar_facts n).1]
    · rename_i h
      rw [List.all_append]
      simp [ih (n / 10) (Nat.div_lt_self (by omega) (by omega)), (digitChar_facts (n % 10)).1]

theorem natDigits_head (n : Nat) : ∃ d tl, natDigits n = digitChar d :: tl := by
  induction n using Nat.strong_induction_on with
  | _ n ih =>
    rw [natDigits]; split
    · exact ⟨n, [], rfl⟩
    · rename_i h
      obtain ⟨d, tl, hd⟩ := ih (n / 10) (Nat.div_lt_self (by omega) (by omega))
      exact ⟨d, tl ++ [digitChar (n % 10)], by rw [hd]; rfl⟩

theorem digitsVal_go (n : Nat) :
    ∀ a, List.foldl (fun a c => a * 10 + (c.toNat - 48)) a (natDigits n) =
      a * 10 ^ (natDigits n).length + n := by
  induction n using Nat.strong_induction_on with
  | _ n ih =>
    intro a
    rw [natDigits]; split
    · rename_i h
      simp [digitChar_toNat n h]
    · rename_i h
      rw [List.foldl_append, ih (n / 10) (Nat.div_lt_self (by omega) (by omega)) a]
      simp [digitChar_toNat (n % 10) (Nat.mod_lt _ (by omega)), List.length_append]
      rw [pow_succ]
      have hdm := Nat.div_add_mod n 10
      ring_nf
      omega

theorem digitsVal_natDigits (n : Nat) : digitsVal (natDigits n) = n := by
  have h := digitsVal_go n 0
  simpa [digitsVal] using h

/-! ## Parser-on-serialiser lemmas: scalars -/


theorem takeWhile_append_all (p : Char → Bool) (l r : List Char) (h : l.all p = true) :
    (l ++ r).takeWhile p = l ++ r.takeWhile p := by
  induction l with
  | nil => simp
  | cons x xs ih =>
    rw [List.all_cons, Bool.and_eq_true] at h
    simp [List.takeWhile_cons, h.1, ih h.2]

theorem dropWhile_append_all (p : Char → Bool) (l r : List Char) (h : l.all p = true) :
    (l ++ r).dropWhile p = r.dropWhile p := by
  induction l with
  | nil => simp
  | cons x xs ih =>
    rw [List.all_cons, Bool.and_eq_true] at h
    simp [List.dropWhile_cons, h.1, ih h.2]

theorem numBoundary_takeWhile (r : List Char) (h : numBoundaryB r = true) :
    r.takeWhile Char.isDigit = [] := by
  cases r with
  | nil => rfl
  | cons c t =>
    simp [numBoundaryB] at h
    simp [List.takeWhile_cons, h]

theorem numBoundary_dropWhile (r : List Char) (h : numBoundaryB r = true) :
    r.dropWhile Char.isDigit = r := by
  cases r with
  | nil => rfl
  | cons c t =>
    simp [numBoundaryB] at h
    simp [List.dropWhile_cons, h]

theorem takeWhile_digits (m : Nat) (rest : List Char) (hb : numBoundaryB rest = true) :
    (natDigits m ++ rest).takeWhile Char.isDigit = natDigits m ∧
    (natDigits m ++ rest).dropWhile Char.isDigit = rest := by
  constructor
  · rw [takeWhile_append_all _ _ _ (natDigits_all_digit m),
      numBoundary_takeWhile rest hb, List.append_nil]
  · rw [dropWhile_append_all _ _ _ (natDigits_all_digit m),
      numBoundary_dropWhile rest hb]

theorem parseNum_intChars (n : Int) (rest : List Char) (hb : numBoundaryB rest = true) :
    parseNum (intChars n ++ rest) = .ok (n, rest) := by
  cases n with
  | ofNat m =>
    obtain ⟨d, tl, hd⟩ := natDigits_head m
    have hdf := digitChar_facts d
    have hch : intChars (Int.ofNat m) = digitChar d :: tl := by
      have hnn : ¬ Int.ofNat m < 0 := by rw [Int.ofNat_eq_natCast]; omega
      rw [intChars, if_neg hnn]
      exact hd
    rw [hch, List.cons_append]
    simp only [parseNum]
    rw [if_neg hdf.2.2.2.1]
    rw [← List.cons_append, ← hd]
    rw [(takeWhile_digits m rest hb).1, (takeWhile_digits m rest hb).2]
    rw [if_neg (natDigits_ne_nil m)]
    rw [digitsVal_natDigits]
  | negSucc m =>
    have hch : intChars (Int.negSucc m) = '-' :: natDigits (m + 1) := by
      rw [intChars, if_pos (Int.negSucc_lt_zero m)]
      rfl
    rw [hch, List.cons_append]
    simp only [parseNum]
    rw [if_pos trivial]
    rw [(takeWhile_digits (m + 1) rest hb).1, (takeWhile_digits (m + 1) rest hb).2]
    rw [if_neg (natDigits_ne_nil (m + 1))]
    rw [digitsVal_natDigits]
    have hv : -(Int.ofNat (m + 1)) = Int.negSucc m := by
      rw [Int.negSucc_eq, Int.ofNat_eq_natCast]
      push_cast
      ring
    rw [hv]

theorem skipWs_cons (c : Char) (r : List Char) (h : isWsB c = false) :
    skipWs (c :: r) = c :: r := by
  simp [skipWs, List.dropWhile_cons, h]

theorem jsonPlainCharB_props (c : Char) (h : jsonPlainCharB c = true) :
    c ≠ '"' ∧ c ≠ '\\' ∧ 32 ≤ c.toNat ∧ c ≠ '<' ∧ c ≠ '>' ∧ c ≠ '&' ∧
      c.toNat ≠ 0x2028 ∧ c.toNat ≠ 0x2029 := by
  simp only [jsonPlainCharB, Bool.and_eq_true, bne_iff_ne, decide_eq_true_eq,
    ne_eq] at h
  tauto

theorem jsonEscapeChar_plain (c : Char) (h : jsonPlainCharB c = true) :
    jsonEscapeChar c = [c] := by
  obtain ⟨h1, h2, h3, h4, h5, h6, h7, h8⟩ := jsonPlainCharB_props c h
  have hn : c ≠ '\n' := fun he => by rw [he] at h3; exact absurd h3 (by decide)
  have hr : c ≠ '\r' := fun he => by rw [he] at h3; exact absurd h3 (by decide)
  have ht : c ≠ '\t' := fun he => by rw [he] at h3; exact absurd h3 (by decide)
  have h20 : ¬ (c.toNat < 0x20) := by omega
  simp [jsonEscapeChar, h1, h2, hn, hr, ht, h20, h4, h5, h6, h7, h8]

theorem jsonEscape_plain (cs : List Char) (h : cs.all jsonPlainCharB = true) :
    jsonEscape cs = cs := by
  induction cs with
  | nil => rfl
  | cons c cs ih =>
    rw [List.all_cons, Bool.and_eq_true] at h
    show jsonEscapeChar c ++ jsonEscape cs = c :: cs
    rw [jsonEscapeChar_plain c h.1, ih h.2]
    rfl

theorem parseStringBody_plain (cs rest : List Char) (h : cs.all jsonPlainCharB = true) :
    parseStringBody (cs ++ '"' :: rest) = .ok (cs, rest) := by
  induction cs with
  | nil =>
    rw [List.nil_append, parseStringBody.eq_def]
    dsimp only []
    rw [if_pos rfl]
  | cons c cs ih =>
    rw [List.all_cons, Bool.and_eq_true] at h
    obtain ⟨h1, h2, _⟩ := jsonPlainCharB_props c h.1
    rw [List.cons_append, parseStringBody.eq_def]
    dsimp only []
    rw [if_neg h1, if_neg h2, ih h.2]

theorem parseVal_str (fuel : Nat) (s : String) (rest : List Char)
    (h : strPlainB s = true) :
    parseVal (fuel + 1) (jsonSer (.vstr s) ++ rest) = .ok (.vstr s, rest) := by
  show parseVal (fuel + 1) (('"' :: (jsonEscape s.data ++ ['"'])) ++ rest) = _
  rw [jsonEscape_plain s.data h, List.cons_append, List.append_assoc,
    List.singleton_append]
  simp only [parseVal]
  rw [skipWs_cons '"' _ (by decide)]
  dsimp only []
  rw [if_pos rfl]
  rw [parseStringBody_plain s.data rest h]

theorem parseVal_true (fuel : Nat) (rest : List Char) :
    parseVal (fuel + 1) (jsonSer (.vbool true) ++ rest) = .ok (.vbool true, rest) := rfl

theorem parseVal_false (fuel : Nat) (rest : List Char) :
    parseVal (fuel + 1) (jsonSer (.vbool false) ++ rest) = .ok (.vbool false, rest) := rfl

theorem parseVal_null (fuel : Nat) (rest : List Char) :
    parseVal (fuel + 1) (jsonSer .vnull ++ rest) = .ok (.vnull, rest) := rfl

theorem parseVal_arr_nil (fuel : Nat) (rest : List Char) :
    parseVal (fuel + 1) (jsonSer (.varr .nil) ++ rest) = .ok (.varr .nil, rest) := rfl

theorem parseVal_obj_nil (fuel : Nat) (rest : List Char) :
    parseVal (fuel + 1) (jsonSer (.vobj .nil) ++ rest) = .ok (.vobj .nil, rest) := rfl

theorem parseVal_num (fuel : Nat) (n : Int) (rest : List Char)
    (hb : numBoundaryB rest = true) :
    parseVal (fuel + 1) (jsonSer (.vnum n) ++ rest) = .ok (.vnum n, rest) := by
  show parseVal (fuel + 1) (intChars n ++ rest) = _
  cases n with
  | ofNat m =>
    obtain ⟨d, tl, hd⟩ := natDigits_head m
    have hdf := digitChar_facts d
    have hch : intChars (Int.ofNat m) = digitChar d :: tl := by
      have hnn : ¬ Int.ofNat m < 0 := by rw [Int.ofNat_eq_natCast]; omega
      rw [intChars, if_neg hnn]
      exact hd
    rw [hch, List.cons_append]
    simp only [parseVal]
    rw [skipWs_cons _ _ hdf.2.1]
    dsimp only []
    rw [if_neg hdf.2.2.2.2.1, if_neg hdf.2.2.2.2.2.1, if_neg hdf.2.2.2.2.2.2.1,
      if_neg hdf.2.2.2.2.2.2.2.1, if_neg hdf.2.2.2.2.2.2.2.2.1,
      if_neg hdf.2.2.2.2.2.2.2.2.2.1]
    rw [if_pos (by simp [hdf.1])]
    rw [← List.cons_append, ← hch]
    rw [parseNum_intChars _ _ hb]
  | negSucc m =>
    have hch : intChars (Int.negSucc m) = '-' :: natDigits (m + 1) := by
      rw [intChars, if_pos (Int.negSucc_lt_zero m)]
      rfl
    rw [hch, List.cons_append]
    simp only [parseVal]
    rw [skipWs_cons _ _ (by decide)]
    dsimp only []
    rw [if_neg (by decide), if_neg (by decide), if_neg (by decide),
      if_neg (by decide), if_neg (by decide), if_neg (by decide)]
    rw [if_pos (by decide)]
    rw [← List.cons_append, ← hch]
    rw [parseNum_intChars _ _ hb]

/-! ## Canonical-form structural lemmas and fuel bounds -/


theorem fkeyNotMem_true {k k2 : String} {v : Value} {tl : VFields}
    (h : fkeyNotMem k (.cons k2 v tl) = true) : k2 ≠ k ∧ fkeyNotMem k tl = true := by
  by_cases hk : k2 = k
  · simp [fkeyNotMem, hk] at h
  · simp [fkeyNotMem, hk] at h
    exact ⟨hk, h⟩

theorem fmapSet_fresh : ∀ (m : VFields) (k : String) (v : Value),
    fkeyNotMem k m = true → fmapSet m k v = fappend m (.cons k v .nil)
  | .nil, _, _, _ => rfl
  | .cons k2 v2 tl, k, v, h => by
    obtain ⟨hk, htl⟩ := fkeyNotMem_true h
    simp [fmapSet, fappend, hk, fmapSet_fresh tl k v htl]

theorem fappend_nil : ∀ m : VFields, fappend m .nil = m
  | .nil => rfl
  | .cons k v tl => by simp [fappend, fappend_nil tl]

theorem fappend_assoc : ∀ a b c : VFields,
    fappend (fappend a b) c = fappend a (fappend b c)
  | .nil, _, _ => rfl
  | .cons k v tl, b, c => by simp [fappend, fappend_assoc tl b c]

theorem fkeyNotMem_fappend : ∀ (k : String) (a b : VFields),
    fkeyNotMem k (fappend a b) = (fkeyNotMem k a && fkeyNotMem k b)
  | k, .nil, b => by simp [fappend, fkeyNotMem]
  | k, .cons k2 v2 tl, b => by
    by_cases hk : k2 = k
    · simp [fappend, fkeyNotMem, hk]
    · simp [fappend, fkeyNotMem, hk, fkeyNotMem_fappend k tl b]

theorem freshAll_fappend : ∀ (fs a b : VFields),
    freshAll fs (fappend a b) = (freshAll fs a && freshAll fs b)
  | .nil, _, _ => rfl
  | .cons k v tl, a, b => by
    simp only [freshAll, fkeyNotMem_fappend, freshAll_fappend tl a b]
    simp [Bool.and_assoc, Bool.and_comm, Bool.and_left_comm]

theorem freshAll_single : ∀ (k : String) (v : Value) (tl : VFields),
    fkeyNotMem k tl = true → freshAll tl (.cons k v .nil) = true
  | _, _, .nil, _ => rfl
  | k, v, .cons k2 v2 tl2, h => by
    obtain ⟨hk, htl⟩ := fkeyNotMem_true h
    have hm : fkeyNotMem k2 (VFields.cons k v .nil) = true := by
      have hne : ¬ k = k2 := fun he => hk he.symm
      simp [fkeyNotMem, hne]
    simp [freshAll, hm, freshAll_single k v tl2 htl]

theorem collapseGo_fresh : ∀ (fs acc : VFields), freshAll fs acc = true →
    keysNodupB fs = true → collapseGo acc fs = fappend acc fs
  | .nil, acc, _, _ => by simp [collapseGo, fappend_nil]
  | .cons k v tl, acc, hfresh, hnodup => by
    simp only [freshAll, Bool.and_eq_true] at hfresh
    simp only [keysNodupB, Bool.and_eq_true] at hnodup
    simp only [collapseGo]
    rw [fmapSet_fresh acc k v hfresh.1]
    rw [collapseGo_fresh tl (fappend acc (.cons k v .nil)) ?side hnodup.2]
    case side =>
      rw [freshAll_fappend]
      simp [hfresh.2, freshAll_single k v tl hnodup.1]
    rw [fappend_assoc]
    rfl

theorem freshAll_nil_acc : ∀ fs : VFields, freshAll fs .nil = true
  | .nil => rfl
  | .cons k v tl => by simp [freshAll, fkeyNotMem, freshAll_nil_acc tl]

theorem collapseFields_nodup (fs : VFields) (h : keysNodupB fs = true) :
    collapseFields fs = fs := by
  rw [collapseFields, collapseGo_fresh fs .nil (freshAll_nil_acc fs) h]
  rfl

theorem sortFields_sorted : ∀ fs, keysSortedAdjB fs = true → sortFields fs = fs
  | .nil, _ => rfl
  | .cons _ _ .nil, _ => rfl
  | .cons k v (.cons k2 v2 tl), h => by
    simp only [keysSortedAdjB, Bool.and_eq_true] at h
    have ih := sortFields_sorted (.cons k2 v2 tl) h.2
    show fieldsInsert k v (sortFields (.cons k2 v2 tl)) = _
    rw [ih]
    simp [fieldsInsert, h.1]

mutual

theorem sortValue_id : ∀ v, canV v = true → sortValue v = v
  | .vstr _, _ => rfl
  | .vnum _, _ => rfl
  | .vbool _, _ => rfl
  | .vnull, _ => rfl
  | .varr xs, h => by
    show Value.varr (sortValueL xs) = Value.varr xs
    rw [sortValueL_id xs (by simpa [canV] using h)]
  | .vobj fs, h => by
    show Value.vobj (sortFields (sortValueF fs)) = Value.vobj fs
    have h2 : canKeys fs = true ∧ canF fs = true := by
      simpa [canV, Bool.and_eq_true] using h
    have hs : keysSortedAdjB fs = true := by
      have h3 := h2.1
      simp only [canKeys, Bool.and_eq_true] at h3
      exact h3.1.2
    rw [sortValueF_id fs h2.2, sortFields_sorted fs hs]
  | .vfunc, h => by simp [canV] at h

theorem sortValueL_id : ∀ xs, canL xs = true → sortValueL xs = xs
  | .nil, _ => rfl
  | .cons v tl, h => by
    have h2 : canV v = true ∧ canL tl = true := by
      simpa [canL, Bool.and_eq_true] using h
    show VList.cons (sortValue v) (sortValueL tl) = _
    rw [sortValue_id v h2.1, sortValueL_id tl h2.2]

theorem sortValueF_id : ∀ fs, canF fs = true → sortValueF fs = fs
  | .nil, _ => rfl
  | .cons k v tl, h => by
    have h2 : canV v = true ∧ canF tl = true := by
      simpa [canF, Bool.and_eq_true] using h
    show VFields.cons k (sortValue v) (sortValueF tl) = _
    rw [sortValue_id v h2.1, sortValueF_id tl h2.2]

end

mutual

theorem containsFunc_canV : ∀ v, canV v = true → containsFunc v = false
  | .vstr _, _ => rfl
  | .vnum _, _ => rfl
  | .vbool _, _ => rfl
  | .vnull, _ => rfl
  | .varr xs, h => by
    show containsFuncL xs = false
    exact containsFuncL_canL xs (by simpa [canV] using h)
  | .vobj fs, h => by
    show containsFuncF fs = false
    have h2 : canKeys fs = true ∧ canF fs = true := by
      simpa [canV, Bool.and_eq_true] using h
    exact containsFuncF_canF fs h2.2
  | .vfunc, h => by simp [canV] at h

theorem containsFuncL_canL : ∀ xs, canL xs = true → containsFuncL xs = false
  | .nil, _ => rfl
  | .cons v tl, h => by
    have h2 : canV v = true ∧ canL tl = true := by
      simpa [canL, Bool.and_eq_true] using h
    show (containsFunc v || containsFuncL tl) = false
    rw [containsFunc_canV v h2.1, containsFuncL_canL tl h2.2]
    rfl

theorem containsFuncF_canF : ∀ fs, canF fs = true → containsFuncF fs = false
  | .nil, _ => rfl
  | .cons _ v tl, h => by
    have h2 : canV v = true ∧ canF tl = true := by
      simpa [canF, Bool.and_eq_true] using h
    show (containsFunc v || containsFuncF tl) = false
    rw [containsFunc_canV v h2.1, containsFuncF_canF tl h2.2]
    rfl

end

mutual

theorem needV_le : ∀ v, needV v ≤ (jsonSer v).length + 1
  | .vstr s => by simp [needV]
  | .vnum n => by simp [needV]
  | .vbool b => by simp [needV]
  | .vnull => by simp [needV]
  | .varr .nil => by simp [needV, needL, jsonSer]
  | .varr (.cons v tl) => by
    have h1 := needV_le v
    have h2 := needL_le tl
    have h3 : max (needV v) (needL tl) ≤
        (jsonSer v).length + (jsonSerArrTail tl).length + 1 :=
      Nat.max_le.mpr ⟨by omega, by omega⟩
    simp only [needV, needL, jsonSer, List.length_cons, List.length_append,
      List.length_singleton]
    omega
  | .vobj .nil => by simp [needV, needF, jsonSer]
  | .vobj (.cons k v tl) => by
    have h1 := needV_le v
    have h2 := needF_le tl
    have h3 : max (needV v) (needF tl) ≤
        (jsonSer v).length + (jsonSerObjTail tl).length + 1 :=
      Nat.max_le.mpr ⟨by omega, by omega⟩
    simp only [needV, needF, jsonSer, List.length_cons, List.length_append,
      List.length_singleton]
    omega
  | .vfunc => by simp [needV, jsonSer]

theorem needL_le : ∀ xs, needL xs ≤ (jsonSerArrTail xs).length + 1
  | .nil => by simp [needL, jsonSerArrTail]
  | .cons v tl => by
    have h1 := needV_le v
    have h2 := needL_le tl
    have h3 : max (needV v) (needL tl) ≤
        (jsonSer v).length + (jsonSerArrTail tl).length + 1 :=
      Nat.max_le.mpr ⟨by omega, by omega⟩
    simp only [needL, jsonSerArrTail, List.length_cons, List.length_append]
    omega

theorem needF_le : ∀ fs, needF fs ≤ (jsonSerObjTail fs).length + 1
  | .nil => by simp [needF, jsonSerObjTail]
  | .cons k v tl => by
    have h1 := needV_le v
    have h2 := needF_le tl
    have h3 : max (needV v) (needF tl) ≤
        (jsonSer v).length + (jsonSerObjTail tl).length + 1 :=
      Nat.max_le.mpr ⟨by omega, by omega⟩
    simp only [needF, jsonSerObjTail, List.length_cons, List.length_append]
    omega

end

/-! ## Soundness of the JSON parser on serialiser output -/


theorem needV_pos : ∀ v, 1 ≤ needV v := by
  intro v
  cases v <;> simp [needV]

theorem jsonSer_head (v : Value) (h : canV v = true) :
    ∃ c t, jsonSer v = c :: t ∧ isWsB c = false ∧ c ≠ ']' := by
  cases v with
  | vstr s => exact ⟨'"', _, rfl, by decide, by decide⟩
  | vnum n =>
    cases n with
    | ofNat m =>
      obtain ⟨d, tl, hd⟩ := natDigits_head m
      have hdf := digitChar_facts d
      refine ⟨digitChar d, tl, ?_, hdf.2.1, hdf.2.2.1⟩
      show intChars (Int.ofNat m) = _
      have hnn : ¬ Int.ofNat m < 0 := by rw [Int.ofNat_eq_natCast]; omega
      rw [intChars, if_neg hnn]
      exact hd
    | negSucc m =>
      refine ⟨'-', natDigits (m + 1), ?_, by decide, by decide⟩
      show intChars (Int.negSucc m) = _
      rw [intChars, if_pos (Int.negSucc_lt_zero m)]
      rfl
  | vbool b =>
    cases b
    · exact ⟨'f', _, rfl, by decide, by decide⟩
    · exact ⟨'t', _, rfl, by decide, by decide⟩
  | vnull => exact ⟨'n', _, rfl, by decide, by decide⟩
  | varr xs =>
    cases xs
    · exact ⟨'[', _, rfl, by decide, by decide⟩
    · exact ⟨'[', _, rfl, by decide, by decide⟩
  | vobj fs =>
    cases fs
    · exact ⟨'\x7b', _, rfl, by decide, by decide⟩
    · exact ⟨'\x7b', _, rfl, by decide, by decide⟩
  | vfunc => simp [canV] at h

theorem parse_sound : ∀ fuel : Nat,
    (∀ v rest, canV v = true → needV v ≤ fuel → numBoundaryB rest = true →
      parseVal fuel (jsonSer v ++ rest) = .ok (v, rest)) ∧
    (∀ v xs rest, canV v = true → canL xs = true →
      needL (VList.cons v xs) ≤ fuel →
      parseArrItems fuel (jsonSer v ++ (jsonSerArrTail xs ++ (']' :: rest))) =
        .ok (.cons v xs, rest)) ∧
    (∀ k v fs rest, strPlainB k = true → canV v = true →
      keysPlainB fs = true → canF fs = true →
      needF (VFields.cons k v fs) ≤ fuel →
      parseObjItems fuel (serKV k v ++ (jsonSerObjTail fs ++ ('\x7d' :: rest))) =
        .ok (.cons k v fs, rest)) := by
  intro fuel
  induction fuel with
  | zero =>
    refine ⟨?_, ?_, ?_⟩
    · intro v rest _ hn _
      have := needV_pos v
      omega
    · intro v xs rest _ _ hn
      simp only [needL] at hn
      omega
    · intro k v fs rest _ _ _ _ hn
      simp only [needF] at hn
      omega
  | succ fuel ih =>
    obtain ⟨ihA, ihB, ihC⟩ := ih
    refine ⟨?_, ?_, ?_⟩
    · intro v rest hc hn hb
      cases v with
      | vstr s => exact parseVal_str fuel s rest (by simpa [canV] using hc)
      | vnum n => exact parseVal_num fuel n rest hb
      | vbool b =>
        cases b
        · exact parseVal_false fuel rest
        · exact parseVal_true fuel rest
      | vnull => exact parseVal_null fuel rest
      | varr xs =>
        cases xs with
        | nil => exact parseVal_arr_nil fuel rest
        | cons w ws =>
          have hcs : canV w = true ∧ canL ws = true := by
            simpa [canV, canL, Bool.and_eq_true] using hc
          simp only [needV, needL] at hn
          have hmax1 := Nat.le_max_left (needV w) (needL ws)
          have hmax2 := Nat.le_max_right (needV w) (needL ws)
          obtain ⟨c0, t0, hser, hws0, hne0⟩ := jsonSer_head w hcs.1
          have harr : (jsonSer w ++ (jsonSerArrTail ws ++ [']'])) ++ rest
              = jsonSer w ++ (jsonSerArrTail ws ++ (']' :: rest)) := by
            simp [List.append_assoc]
          show parseVal (fuel + 1)
            ('[' :: ((jsonSer w ++ (jsonSerArrTail ws ++ [']'])) ++ rest)) = _
          rw [harr]
          simp only [parseVal]
          rw [skipWs_cons '[' _ (by decide)]
          try dsimp only []
          rw [if_neg (by decide), if_neg (by decide), if_neg (by decide),
            if_neg (by decide), if_pos rfl]
          rw [hser, List.cons_append, skipWs_cons c0 _ hws0]
          try dsimp only []
          rw [if_neg hne0]
          rw [← List.cons_append, ← hser]
          rw [ihB w ws rest hcs.1 hcs.2 (by simp only [needL]; omega)]
      | vobj fs =>
        cases fs with
        | nil => exact parseVal_obj_nil fuel rest
        | cons k w tl =>
          have h2 : canKeys (.cons k w tl) = true ∧ canF (.cons k w tl) = true := by
            simpa [canV, Bool.and_eq_true] using hc
          have hkeys := h2.1
          simp only [canKeys, Bool.and_eq_true] at hkeys
          have hkp : strPlainB k = true ∧ keysPlainB tl = true := by
            have h3 := hkeys.1.1
            simpa [keysPlainB, Bool.and_eq_true] using h3
          have hnodup : keysNodupB (.cons k w tl) = true := hkeys.2
          have hcf : canV w = true ∧ canF tl = true := by
            have h3 := h2.2
            simpa [canF, Bool.and_eq_true] using h3
          simp only [needV, needF] at hn
          have hmax1 := Nat.le_max_left (needV w) (needF tl)
          have hmax2 := Nat.le_max_right (needV w) (needF tl)
          have hobj : (serKV k w ++ (jsonSerObjTail tl ++ ['\x7d'])) ++ rest
              = serKV k w ++ (jsonSerObjTail tl ++ ('\x7d' :: rest)) := by
            simp [List.append_assoc]
          show parseVal (fuel + 1)
            ('\x7b' :: ((serKV k w ++ (jsonSerObjTail tl ++ ['\x7d'])) ++ rest)) = _
          rw [hobj]
          simp only [parseVal]
          rw [skipWs_cons '\x7b' _ (by decide)]
          try dsimp only []
          rw [if_neg (by decide), if_neg (by decide), if_neg (by decide),
            if_neg (by decide), if_neg (by decide), if_pos rfl]
          have hkv : serKV k w ++ (jsonSerObjTail tl ++ ('\x7d' :: rest))
              = '"' :: ((jsonEscape k.data ++ ('"' :: ':' :: jsonSer w))
                ++ (jsonSerObjTail tl ++ ('\x7d' :: rest))) := rfl
          rw [hkv, skipWs_cons '"' _ (by decide)]
          try dsimp only []
          rw [if_neg (by decide)]
          rw [← hkv]
          rw [ihC k w tl rest hkp.1 hcf.1 hkp.2 hcf.2 (by simp only [needF]; omega)]
          try dsimp only []
          rw [collapseFields_nodup _ hnodup]
      | vfunc => simp [canV] at hc
    · intro v xs rest hv hxs hn
      simp only [needL] at hn
      have hmax1 := Nat.le_max_left (needV v) (needL xs)
      have hmax2 := Nat.le_max_right (needV v) (needL xs)
      simp only [parseArrItems]
      rw [ihA v (jsonSerArrTail xs ++ (']' :: rest)) hv (by omega)
        (by cases xs <;> rfl)]
      try dsimp only []
      cases xs with
      | nil =>
        rw [show jsonSerArrTail VList.nil ++ (']' :: rest) = ']' :: rest from rfl]
        rw [skipWs_cons ']' _ (by decide)]
        rfl
      | cons w ws =>
        have hws2 : canV w = true ∧ canL ws = true := by
          simpa [canL, Bool.and_eq_true] using hxs
        rw [show jsonSerArrTail (VList.cons w ws) ++ (']' :: rest)
            = ',' :: (jsonSer w ++ (jsonSerArrTail ws ++ (']' :: rest))) from by
          simp [jsonSerArrTail, List.append_assoc]]
        rw [skipWs_cons ',' _ (by decide)]
        try dsimp only []
        rw [if_pos rfl]
        rw [ihB w ws rest hws2.1 hws2.2 (by omega)]
    · intro k v fs rest hk hv hkp hcf hn
      simp only [needF] at hn
      have hmax1 := Nat.le_max_left (needV v) (needF fs)
      have hmax2 := Nat.le_max_right (needV v) (needF fs)
      simp only [parseObjItems]
      have hkv : serKV k v ++ (jsonSerObjTail fs ++ ('\x7d' :: rest))
          = '"' :: (jsonEscape k.data ++ ('"' :: (':' :: (jsonSer v
            ++ (jsonSerObjTail fs ++ ('\x7d' :: rest)))))) := by
        simp [serKV, List.append_assoc]
      rw [hkv, skipWs_cons '"' _ (by decide)]
      try dsimp only []
      rw [if_pos rfl]
      rw [jsonEscape_plain k.data hk]
      rw [parseStringBody_plain k.data _ hk]
      try dsimp only []
      rw [skipWs_cons ':' _ (by decide)]
      try dsimp only []
      rw [if_pos rfl]
      rw [ihA v (jsonSerObjTail fs ++ ('\x7d' :: rest)) hv (by omega)
        (by cases fs <;> rfl)]
      try dsimp only []
      cases fs with
      | nil =>
        rw [show jsonSerObjTail VFields.nil ++ ('\x7d' :: rest) = '\x7d' :: rest from rfl]
        rw [skipWs_cons '\x7d' _ (by decide)]
        rfl
      | cons k2 v2 tl =>
        have hkp2 : strPlainB k2 = true ∧ keysPlainB tl = true := by
          simpa [keysPlainB, Bool.and_eq_true] using hkp
        have hcf2 : canV v2 = true ∧ canF tl = true := by
          simpa [canF, Bool.and_eq_true] using hcf
        rw [show jsonSerObjTail (VFields.cons k2 v2 tl) ++ ('\x7d' :: rest)
            = ',' :: (serKV k2 v2 ++ (jsonSerObjTail tl ++ ('\x7d' :: rest))) from by
          simp [jsonSerObjTail, serKV, List.append_assoc]]
        rw [skipWs_cons ',' _ (by decide)]
        try dsimp only []
        rw [if_pos rfl]
        rw [ihC k2 v2 tl rest hkp2.1 hcf2.1 hkp2.2 hcf2.2 (by omega)]



/-- C2 counterexample: the claim quantifies over simple scalar and
sequence values as well, but `FromJson` unmarshals into a string-keyed
map, so a marshalled top-level scalar or sequence comes back as the
`Error` sentinel map rather than as the original value. -/
theorem c2_counterexample :
    ToJson (.vstr "hello") = "\"hello\"" ∧
    FromJson (ToJson (.vstr "hello")) =
      .cons "Error" (.vstr
        "json: cannot unmarshal string into Go value of type map[string]interface \x7b\x7d")
        .nil ∧
    ToJson (.varr (.cons (.vbool true) .nil)) = "[true]" ∧
    FromJson (ToJson (.varr (.cons (.vbool true) .nil))) =
      .cons "Error" (.vstr
        "json: cannot unmarshal array into Go value of type map[string]interface \x7b\x7d")
        .nil :=
  ⟨rfl, rfl, rfl, rfl⟩

/-- C2 (amended): for string-keyed maps of simple JSON-representable
values in canonical form — plain strings, float64-exact integers,
booleans, null, sequences and nested maps of the same, keys sorted and
duplicate-free — the JSON round trip `FromJson ∘ ToJson` is lossless. -/
theorem c2_amended_json_round_trip (fs : VFields) (h : canV (.vobj fs) = true) :
    FromJson (ToJson (.vobj fs)) = fs := by
  have hcf : containsFunc (.vobj fs) = false := containsFunc_canV _ h
  have hsort : sortValue (.vobj fs) = .vobj fs := sortValue_id _ h
  have hto : ToJson (.vobj fs) = String.mk (jsonSer (.vobj fs)) := by
    simp [ToJson, jsonMarshal, hcf, hsort]
  rw [hto]
  have hdata : (String.mk (jsonSer (Value.vobj fs))).data = jsonSer (Value.vobj fs) := rfl
  have hlen : needV (.vobj fs) ≤ (String.mk (jsonSer (.vobj fs))).data.length + 2 := by
    have h1 := needV_le (.vobj fs)
    rw [hdata]
    omega
  have hparse := (parse_sound ((String.mk (jsonSer (.vobj fs))).data.length + 2)).1
    (.vobj fs) [] h hlen rfl
  rw [List.append_nil] at hparse
  simp only [FromJson, jsonUnmarshalMap, hdata, hparse]
  rfl

/-- Witness for the amended C2 on a three-key map holding a sequence, a
string and a nested map. -/
theorem c2_round_trip_witness :
    canV (.vobj (.cons "a"
      (.varr (.cons (.vnum 1) (.cons (.vbool true) (.cons .vnull .nil))))
      (.cons "b" (.vstr "v")
        (.cons "c" (.vobj (.cons "x" (.vstr "y") .nil)) .nil)))) = true ∧
    FromJson (ToJson (.vobj (.cons "a"
      (.varr (.cons (.vnum 1) (.cons (.vbool true) (.cons .vnull .nil))))
      (.cons "b" (.vstr "v")
        (.cons "c" (.vobj (.cons "x" (.vstr "y") .nil)) .nil))))) =
      .cons "a" (.varr (.cons (.vnum 1) (.cons (.vbool true) (.cons .vnull .nil))))
        (.cons "b" (.vstr "v")
          (.cons "c" (.vobj (.cons "x" (.vstr "y") .nil)) .nil)) :=
  ⟨by decide, c2_amended_json_round_trip _ (by decide)⟩

end TmpltFiles
